import Mathlib

/-!
Shallow embedding of the shapefile WASM core
(`src/components/geo-loader/core/processors/implementations/shapefile/wasm/src/`,
files `geometry.rs`, `validation.rs`, `geojson.rs`, `lib.rs`).

Modelling choices, stated once:

* A Rust function returning `Result<T, JsError>` is modelled as
  `RustResult T`, whose `err` constructor is a returned `JsError` and whose
  `panic` constructor is a Rust panic (a wasm trap): the two are distinct
  observable behaviours and several claims turn on the difference.
* `calculate_bounds` uses only `f64::min`, `f64::max` and `is_finite`, none
  of which round, so it is embedded exactly over `FP`, an explicit model of
  the `f64` value space (finite rationals, `nan`, and the two infinities)
  with Rust's NaN-ignoring `min`/`max`.
* The arithmetic functions (`is_clockwise`, the converters) use `+ - *` on
  `f64`; they are embedded over `ℚ` (every finite double is a rational),
  the exact-arithmetic reading of the code.
* `usize` values that only index or count are modelled as `ℕ`;
  `validate_record_buffer_space`, whose claim is specifically about
  fixed-width wrap-around, is modelled with the wasm32 width `2 ^ 32` and
  release-profile (wrapping) integer semantics.
-/

namespace Shapefile

/-- Outcome of calling a Rust function from JS: a returned value, a returned
`JsError`, or a panic (wasm trap). -/
inductive RustResult (α : Type) where
  | ok : α → RustResult α
  | err : String → RustResult α
  | panic : String → RustResult α
deriving DecidableEq

/-- Total pairing of a flat array, as `chunks(2)` followed by reading
`chunk[0]`, `chunk[1]` does on an even-length array (a trailing odd element
is dropped; callers reach this only after an even-length check). -/
def chunksPairs {α : Type} : List α → List (α × α)
  | x :: y :: rest => (x, y) :: chunksPairs rest
  | _ => []

/-- `chunks(2)` followed by reading `chunk[0]`, `chunk[1]` on an arbitrary
array: on an odd-length array the final chunk has one element and reading
`chunk[1]` panics with Rust's index-out-of-bounds message. -/
def chunksPairsR {α : Type} : List α → RustResult (List (α × α))
  | [] => .ok []
  | [_] => .panic "index out of bounds: the len is 1 but the index is 1"
  | x :: y :: rest =>
    match chunksPairsR rest with
    | .ok ps => .ok ((x, y) :: ps)
    | .err m => .err m
    | .panic m => .panic m

/-- The `f64` value space as `calculate_bounds` observes it: finite values
(each finite double is a rational), NaN and the two infinities. -/
inductive FP where
  | nan : FP
  | ninf : FP
  | inf : FP
  | fin : ℚ → FP
deriving DecidableEq

/-- Rust `f64::min`: NaN-ignoring minimum (if one argument is NaN the other
is returned). -/
def fmin : FP → FP → FP
  | .nan, b => b
  | a, .nan => a
  | .ninf, _ => .ninf
  | _, .ninf => .ninf
  | .fin a, .fin b => .fin (min a b)
  | .fin a, .inf => .fin a
  | .inf, b => b

/-- Rust `f64::max`: NaN-ignoring maximum. -/
def fmax : FP → FP → FP
  | .nan, b => b
  | a, .nan => a
  | .inf, _ => .inf
  | _, .inf => .inf
  | .fin a, .fin b => .fin (max a b)
  | .fin a, .ninf => .fin a
  | .ninf, b => b

/-- `f64::is_finite`. -/
def FP.isFinite : FP → Bool
  | .fin _ => true
  | _ => false

/-- The `Bounds` struct of `geometry.rs`. -/
structure Bounds where
  min_x : FP
  min_y : FP
  max_x : FP
  max_y : FP
deriving DecidableEq

/-- `Bounds::default()`: `(∞, ∞, −∞, −∞)`. -/
def Bounds.start : Bounds := ⟨.inf, .inf, .ninf, .ninf⟩

/-- The `for chunk in coordinates.chunks(2)` loop body of
`calculate_bounds`, folded over the coordinate pairs. -/
def boundsFold : List (FP × FP) → Bounds → Bounds
  | [], b => b
  | (x, y) :: rest, b =>
    boundsFold rest ⟨fmin b.min_x x, fmin b.min_y y, fmax b.max_x x, fmax b.max_y y⟩

/-- `calculate_bounds` (`geometry.rs:25`): even-length check, min/max scan
from `Bounds::default()`, zero box when the running x-minimum is not
finite. -/
def calculate_bounds (coordinates : List FP) : RustResult (List FP) :=
  if coordinates.length % 2 ≠ 0 then
    .err "Coordinates array must have even length"
  else
    let b := boundsFold (chunksPairs coordinates) Bounds.start
    if b.min_x.isFinite = false then
      .ok [.fin 0, .fin 0, .fin 0, .fin 0]
    else
      .ok [b.min_x, b.min_y, b.max_x, b.max_y]

/-- A polygon ring: a sequence of coordinate pairs. -/
abbrev Ring := List (ℚ × ℚ)

/-- One term of the signed-area loop of `is_clockwise`:
`(x2 - x1) * (y2 + y1)`. -/
def edgeTerm (p q : ℚ × ℚ) : ℚ := (q.1 - p.1) * (q.2 + p.2)

/-- The `for i in 0..points.len() - 1` accumulation of `is_clockwise`:
the sum of `edgeTerm` over consecutive point pairs. -/
def shoelace : List (ℚ × ℚ) → ℚ
  | p :: q :: rest => edgeTerm p q + shoelace (q :: rest)
  | _ => 0

/-- `is_clockwise` (`geometry.rs:50`): fewer than 6 scalars is an error;
otherwise the scalars are paired by `chunks(2)` (which panics on an odd
count) and the result is whether the signed-area sum is positive. -/
def is_clockwise (coordinates : List ℚ) : RustResult Bool :=
  if coordinates.length < 6 then
    .err "Ring must have at least 3 points"
  else
    match chunksPairsR coordinates with
    | .ok points => .ok (decide (0 < shoelace points))
    | .err m => .err m
    | .panic m => .panic m

/-- The geometry values built by `geometry.rs` (the `geo_types` values it
constructs, before serialization): a `polygon` carries its rings with the
exterior first, a `multiPolygon` a list of such ring lists. -/
inductive Geometry where
  | point : ℚ × ℚ → Geometry
  | multiPoint : List (ℚ × ℚ) → Geometry
  | lineString : List (ℚ × ℚ) → Geometry
  | polygon : List Ring → Geometry
  | multiPolygon : List (List Ring) → Geometry
deriving DecidableEq

/-- `convert_point` (`geometry.rs:73`): builds `Point::new(x, y)`
(serialization, modelled separately by `geoTypesJson`, cannot fail). -/
def convert_point (x y : ℚ) : RustResult Geometry :=
  .ok (.point (x, y))

/-- `convert_multi_point` (`geometry.rs:80`): even-length check, then pair
up the coordinates. -/
def convert_multi_point (coordinates : List ℚ) : RustResult Geometry :=
  if coordinates.length % 2 ≠ 0 then
    .err "Coordinates array must have even length"
  else
    .ok (.multiPoint (chunksPairs coordinates))

/-- `convert_polyline` (`geometry.rs:96`): even-length check, then pair up
the coordinates into a `LineString`. -/
def convert_polyline (coordinates : List ℚ) : RustResult Geometry :=
  if coordinates.length % 2 ≠ 0 then
    .err "Coordinates array must have even length"
  else
    .ok (.lineString (chunksPairs coordinates))

/-- A ring flattened back to the `[x, y, x, y, ...]` array handed to
`is_clockwise` inside `convert_polygon`
(`ring.0.iter().flat_map(|c| vec![c.x, c.y])`). -/
def flattenPts : List (ℚ × ℚ) → List ℚ
  | [] => []
  | p :: rest => p.1 :: p.2 :: flattenPts rest

/-- Several rings flattened into one coordinate array. -/
def flattenRings : List Ring → List ℚ
  | [] => []
  | r :: rs => flattenPts r ++ flattenRings rs

/-- The wasm32 `usize` modulus. -/
def usizeW : ℕ := 2 ^ 32

/-- Wrapping `usize` addition (release-profile overflow semantics on
wasm32), as `offset + size * 2`, `offset += size * 2` and
`offset + record_size` compute. -/
def add32 (a b : ℕ) : ℕ := (a + b) % usizeW

/-- Wrapping `usize` multiplication (release-profile overflow semantics on
wasm32), as `size * 2` computes. -/
def mul32 (a b : ℕ) : ℕ := (a * b) % usizeW

/-- Wrapping `usize` subtraction `a - b` for `a, b < 2 ^ 32`
(release-profile underflow semantics on wasm32). -/
def sub32 (a b : ℕ) : ℕ := (a + usizeW - b) % usizeW

/-- The ring-slicing loop of `convert_polygon` (`geometry.rs:123`):
`size * 2` and `offset + size * 2` wrap as wasm32 release `usize`
arithmetic; `&coordinates[offset..end]` panics with Rust's
index-order message when the wrapped end is below the start, and with
Rust's range-end-out-of-range message when the end exceeds the array. -/
def sliceRings (coordinates : List ℚ) : List ℕ → ℕ → RustResult (List Ring)
  | [], _ => .ok []
  | size :: rest, offset =>
    if add32 offset (mul32 size 2) < offset then
      .panic ("slice index starts at " ++ toString offset ++ " but ends at "
        ++ toString (add32 offset (mul32 size 2)))
    else if coordinates.length < add32 offset (mul32 size 2) then
      .panic ("range end index " ++ toString (add32 offset (mul32 size 2))
        ++ " out of range for slice of length " ++ toString coordinates.length)
    else
      match sliceRings coordinates rest (add32 offset (mul32 size 2)) with
      | .ok rs => .ok (chunksPairs ((coordinates.drop offset).take
          (add32 offset (mul32 size 2) - offset)) :: rs)
      | .err m => .err m
      | .panic m => .panic m

/-- `geo_types::LineString::close`, called by `Polygon::new` on every ring:
append the first coordinate when the ring is not already closed
(`is_closed` compares first and last; an empty line string is closed). -/
def closeRing (r : Ring) : Ring :=
  if r.head? = r.getLast? then r else r ++ r.head?.toList

/-- `geo_types::Polygon::new(current[0], current[1..])`: the first
accumulated ring is the exterior, the rest the interiors, each closed. -/
def mkPoly : List Ring → List Ring
  | [] => []
  | r :: rs => closeRing r :: rs.map closeRing

/-- The orientation-grouping loop of `convert_polygon` (`geometry.rs:139`):
a clockwise ring flushes the current polygon and starts a new one, any
other ring joins the current polygon; an `is_clockwise` failure propagates
out of the loop. -/
def groupLoop : List Ring → List Ring → List (List Ring) → RustResult (List (List Ring))
  | [], current, polygons =>
    .ok (polygons ++ (if current.isEmpty then [] else [mkPoly current]))
  | ring :: rest, current, polygons =>
    match is_clockwise (flattenPts ring) with
    | .err m => .err m
    | .panic m => .panic m
    | .ok true =>
      groupLoop rest [ring]
        (polygons ++ (if current.isEmpty then [] else [mkPoly current]))
    | .ok false =>
      groupLoop rest (current ++ [ring]) polygons

/-- The final emission of `convert_polygon`: exactly one grouped polygon is
returned as `Polygon`, any other count as `MultiPolygon`. -/
def renderPolys : List (List Ring) → Geometry
  | [p] => .polygon p
  | ps => .multiPolygon ps

/-- `convert_polygon` (`geometry.rs:115`): even-length check, slice the
array into rings by `ring_sizes`, group the rings by winding order, emit a
`Polygon` or `MultiPolygon`. -/
def convert_polygon (coordinates : List ℚ) (ring_sizes : List ℕ) : RustResult Geometry :=
  if coordinates.length % 2 ≠ 0 then
    .err "Coordinates array must have even length"
  else
    match sliceRings coordinates ring_sizes 0 with
    | .err m => .err m
    | .panic m => .panic m
    | .ok rings =>
      match groupLoop rings [] [] with
      | .err m => .err m
      | .panic m => .panic m
      | .ok polygons => .ok (renderPolys polygons)

/-- `validate_shape_type` (`validation.rs:192`): the 14 recognized codes of
the shapefile specification; 0 (null shape) yields `false`, the other 13
yield `true`, everything else is an error. -/
def validate_shape_type (shape_type : ℕ) : RustResult Bool :=
  if shape_type = 0 then .ok false
  else if shape_type = 1 then .ok true
  else if shape_type = 3 then .ok true
  else if shape_type = 5 then .ok true
  else if shape_type = 8 then .ok true
  else if shape_type = 11 then .ok true
  else if shape_type = 13 then .ok true
  else if shape_type = 15 then .ok true
  else if shape_type = 18 then .ok true
  else if shape_type = 21 then .ok true
  else if shape_type = 23 then .ok true
  else if shape_type = 25 then .ok true
  else if shape_type = 28 then .ok true
  else if shape_type = 31 then .ok true
  else .err ("Invalid shape type: " ++ toString shape_type)

/-- Result of `validate_record_buffer_space`, with the values the error
message interpolates kept structured: the record number, the `need` count
(`record_size`) and the `have` count (`buffer_length - offset` as the code
computes it). -/
inductive BufferSpaceResult where
  | ok : BufferSpaceResult
  | err (record_number : ℤ) (need : ℕ) (avail : ℕ) : BufferSpaceResult
deriving DecidableEq

/-- `validate_record_buffer_space` (`validation.rs:112`): error when
`offset + record_size > buffer_length`, the error message reporting
`buffer_length - offset` available bytes; both operations use wrapping
wasm32 `usize` arithmetic. -/
def validate_record_buffer_space (offset record_size buffer_length : ℕ)
    (record_number : ℤ) : BufferSpaceResult :=
  if buffer_length < add32 offset record_size then
    .err record_number record_size (sub32 buffer_length offset)
  else
    .ok

/-- The JSON-like value space `serde_wasm_bindgen` serializes into. -/
inductive Json where
  | num : ℚ → Json
  | str : String → Json
  | arr : List Json → Json
  | obj : List (String × Json) → Json

/-- The keys of a JSON object (empty for any other value). -/
def jsonKeys : Json → List String
  | .obj l => l.map Prod.fst
  | _ => []

/-- Serde serialization of a `geo_types::Coord`: a struct with fields `x`
and `y`. -/
def coordJson (p : ℚ × ℚ) : Json := .obj [("x", .num p.1), ("y", .num p.2)]

/-- Serde serialization of a `geo_types` ring (`LineString`, a newtype over
`Vec<Coord>`): an array of coord objects. -/
def ringJson (r : Ring) : Json := .arr (r.map coordJson)

/-- Serde serialization of a `geo_types::Polygon`: a struct with fields
`exterior` and `interiors`. -/
def polyJson : List Ring → Json
  | [] => .obj [("exterior", .arr []), ("interiors", .arr [])]
  | ext :: ints => .obj [("exterior", ringJson ext), ("interiors", .arr (ints.map ringJson))]

/-- What `serde_wasm_bindgen::to_value` produces for the `geo_types` values
`geometry.rs` actually serializes: derived serde output (`Point` and the
multi-types are newtypes, `Coord` and `Polygon` are field structs). This is
what the exported conversion functions hand to JavaScript. -/
def geoTypesJson : Geometry → Json
  | .point p => coordJson p
  | .multiPoint ps => .arr (ps.map coordJson)
  | .lineString ps => .arr (ps.map coordJson)
  | .polygon rings => polyJson rings
  | .multiPolygon polys => .arr (polys.map polyJson)

/-- The interchange shape of `geojson.rs` (`Point::new`): an object with a
`type` discriminator string and a flat coordinate pair — the shape the
claim says every produced geometry has. Defined from `geojson.rs:45`. -/
def geojsonPointJson (x y : ℚ) : Json :=
  .obj [("type", .str "Point"), ("coordinates", .arr [.num x, .num y])]

/-- The serialization of the geometry a conversion function produced
(`Ok` case only). -/
def serializedOutput : RustResult Geometry → Option Json
  | .ok g => some (geoTypesJson g)
  | _ => none

/-- Spec-side grouping of classified rings, written from the claim's words:
the first ring always opens the first polygon, each later clockwise ring
starts a new polygon, and the counter-clockwise rings following a ring stay
in its polygon as holes. Compared against `convert_polygon`'s output. -/
def groupRingsSpec : List (Bool × Ring) → List (List Ring)
  | [] => []
  | (_, r) :: rest =>
    (r :: (rest.takeWhile (fun p => !p.1)).map Prod.snd)
      :: groupRingsSpec (rest.dropWhile (fun p => !p.1))
termination_by l => l.length
decreasing_by
  simp only [List.length_cons]
  exact Nat.lt_succ_of_le (List.IsSuffix.length_le (List.dropWhile_suffix _))

/-- The grouping the code's loop state denotes: the pending `current`
rings (if any) absorb the next run of counter-clockwise rings and form one
polygon, and the remaining classified rings group as `groupRingsSpec`. -/
def specCont (current : List Ring) (l : List (Bool × Ring)) : List (List Ring) :=
  match current with
  | [] => groupRingsSpec l
  | _ =>
    (current ++ (l.takeWhile (fun p => !p.1)).map Prod.snd)
      :: groupRingsSpec (l.dropWhile (fun p => !p.1))

/-- Each ring paired with the code's clockwise classification. -/
def flagsOf (rs : List Ring) : List (Bool × Ring) :=
  rs.map (fun r => (decide (0 < shoelace r), r))

/-- Concrete clockwise unit square (signed-area sum `2 > 0`). -/
def sqCW : Ring := [(0, 0), (0, 1), (1, 1), (1, 0), (0, 0)]

/-- Concrete counter-clockwise inner square (signed-area sum `-1/2 ≤ 0`),
a hole of `sqCW`. -/
def holeCCW : Ring :=
  [(1/4, 1/4), (3/4, 1/4), (3/4, 3/4), (1/4, 3/4), (1/4, 1/4)]

/-! ### Helper lemmas -/

theorem chunksPairs_flattenPts (l : List (ℚ × ℚ)) : chunksPairs (flattenPts l) = l := by
  induction l with
  | nil => rfl
  | cons p rest ih => simp [flattenPts, chunksPairs, ih]

theorem length_flattenPts (l : List (ℚ × ℚ)) : (flattenPts l).length = 2 * l.length := by
  induction l with
  | nil => rfl
  | cons p rest ih => simp [flattenPts, ih]; ring

theorem chunksPairsR_even {α : Type} :
    ∀ l : List α, l.length % 2 = 0 → chunksPairsR l = .ok (chunksPairs l)
  | [], _ => rfl
  | [_], h => by simp at h
  | _ :: _ :: rest, h => by
    have h' : rest.length % 2 = 0 := by
      simp only [List.length_cons] at h
      omega
    simp [chunksPairsR, chunksPairs, chunksPairsR_even rest h']

theorem is_clockwise_flatten (ps : List (ℚ × ℚ)) (h : 3 ≤ ps.length) :
    is_clockwise (flattenPts ps) = .ok (decide (0 < shoelace ps)) := by
  have hlen : (flattenPts ps).length = 2 * ps.length := length_flattenPts ps
  have h6 : ¬ (flattenPts ps).length < 6 := by omega
  have hev : (flattenPts ps).length % 2 = 0 := by omega
  simp only [is_clockwise, h6, if_false, chunksPairsR_even _ hev, chunksPairs_flattenPts]

theorem length_flattenRings (rs : List Ring) :
    (flattenRings rs).length = 2 * (rs.map List.length).sum := by
  induction rs with
  | nil => rfl
  | cons r rest ih =>
    simp [flattenRings, length_flattenPts, ih]
    ring

theorem sliceRings_flatten :
    ∀ (rs : List Ring) (pre : List ℚ),
      (pre ++ flattenRings rs).length < usizeW →
      sliceRings (pre ++ flattenRings rs) (rs.map List.length) pre.length = .ok rs
  | [], _, _ => rfl
  | r :: rest, pre, hW => by
    have hlen : (pre ++ flattenRings (r :: rest)).length
        = pre.length + 2 * r.length + (flattenRings rest).length := by
      simp [flattenRings, length_flattenPts]
      ring
    have hmul : mul32 r.length 2 = r.length * 2 := by
      have h : r.length * 2 < usizeW := by omega
      simp [mul32, Nat.mod_eq_of_lt h]
    have hadd : add32 pre.length (r.length * 2) = pre.length + r.length * 2 := by
      have h : pre.length + r.length * 2 < usizeW := by omega
      simp [add32, Nat.mod_eq_of_lt h]
    have hnot1 : ¬ (pre.length + r.length * 2 < pre.length) := by omega
    have hnot2 : ¬ ((pre ++ flattenRings (r :: rest)).length
        < pre.length + r.length * 2) := by omega
    have hdrop : (pre ++ flattenRings (r :: rest)).drop pre.length = flattenRings (r :: rest) := by
      simp [List.drop_left]
    have htake : (flattenRings (r :: rest)).take (r.length * 2) = flattenPts r := by
      have h1 : flattenRings (r :: rest) = flattenPts r ++ flattenRings rest := rfl
      rw [h1]
      have h2 : r.length * 2 = (flattenPts r).length := by
        rw [length_flattenPts]; ring
      rw [h2, List.take_left]
    have hrec : sliceRings (pre ++ flattenRings (r :: rest)) (rest.map List.length)
        (pre.length + r.length * 2) = .ok rest := by
      have happ : pre ++ flattenRings (r :: rest) = (pre ++ flattenPts r) ++ flattenRings rest := by
        simp [flattenRings]
      have hoff : pre.length + r.length * 2 = (pre ++ flattenPts r).length := by
        simp [length_flattenPts]; ring
      rw [happ, hoff]
      exact sliceRings_flatten rest (pre ++ flattenPts r) (by rw [← happ]; exact hW)
    simp only [List.map_cons, sliceRings, hmul, hadd, hnot1, hnot2, if_false,
      hrec, Nat.add_sub_cancel_left, hdrop, htake, chunksPairs_flattenPts]

theorem closeRing_closed (r : Ring) (h : r.head? = r.getLast?) : closeRing r = r := by
  simp [closeRing, h]

theorem map_closeRing (rs : List Ring) (h : ∀ r ∈ rs, r.head? = r.getLast?) :
    rs.map closeRing = rs := by
  induction rs with
  | nil => rfl
  | cons r rest ih =>
    simp only [List.map_cons]
    rw [closeRing_closed r (h r (by simp)), ih (fun r hr => h r (by simp [hr]))]

theorem mkPoly_closed (c : List Ring) (h : ∀ r ∈ c, r.head? = r.getLast?) : mkPoly c = c := by
  cases c with
  | nil => rfl
  | cons r rs =>
    simp only [mkPoly]
    rw [closeRing_closed r (h r (by simp)), map_closeRing rs (fun x hx => h x (by simp [hx]))]

theorem specCont_true (current : List Ring) (r : Ring) (fl : List (Bool × Ring)) :
    specCont current ((true, r) :: fl)
      = (if current.isEmpty then [] else [current]) ++ specCont [r] fl := by
  cases current with
  | nil => simp [specCont, groupRingsSpec]
  | cons c cs => simp [specCont, groupRingsSpec]

theorem specCont_false (current : List Ring) (r : Ring) (fl : List (Bool × Ring)) :
    specCont current ((false, r) :: fl) = specCont (current ++ [r]) fl := by
  cases current with
  | nil => simp [specCont, groupRingsSpec]
  | cons c cs => simp [specCont, groupRingsSpec]

theorem groupLoop_spec :
    ∀ (l : List Ring) (current : List Ring) (polygons : List (List Ring)),
      (∀ r ∈ l, 3 ≤ r.length) →
      (∀ r ∈ l, r.head? = r.getLast?) →
      (∀ r ∈ current, r.head? = r.getLast?) →
      groupLoop l current polygons = .ok (polygons ++ specCont current (flagsOf l))
  | [], current, polygons, _, _, hc => by
    cases current with
    | nil => simp [groupLoop, specCont, flagsOf, groupRingsSpec]
    | cons c cs =>
      simp only [groupLoop, List.isEmpty_cons, Bool.false_eq_true, if_false,
        mkPoly_closed _ hc, specCont, flagsOf, List.map_nil, List.takeWhile_nil,
        List.dropWhile_nil, groupRingsSpec, List.append_nil]
  | ring :: rest, current, polygons, h3, hcl, hc => by
    have hring3 : 3 ≤ ring.length := h3 ring (by simp)
    have hringcl : ring.head? = ring.getLast? := hcl ring (by simp)
    have h3' : ∀ r ∈ rest, 3 ≤ r.length := fun r hr => h3 r (by simp [hr])
    have hcl' : ∀ r ∈ rest, r.head? = r.getLast? := fun r hr => hcl r (by simp [hr])
    have hflag : flagsOf (ring :: rest)
        = (decide (0 < shoelace ring), ring) :: flagsOf rest := rfl
    cases hb : decide (0 < shoelace ring) with
    | true =>
      have ih := groupLoop_spec rest [ring]
        (polygons ++ (if current.isEmpty then [] else [mkPoly current]))
        h3' hcl' (by simpa using hringcl)
      rw [mkPoly_closed _ hc] at ih
      simp only [groupLoop, is_clockwise_flatten ring hring3, hb,
        mkPoly_closed _ hc, ih, hflag, specCont_true, List.append_assoc]
    | false =>
      have ih := groupLoop_spec rest (current ++ [ring]) polygons h3' hcl'
        (by
          intro r hr
          rcases List.mem_append.mp hr with h | h
          · exact hc r h
          · simp at h; subst h; exact hringcl)
      simp only [groupLoop, is_clockwise_flatten ring hring3, hb, ih, hflag,
        specCont_false]

theorem convert_polygon_flatten (rs : List Ring)
    (h3 : ∀ r ∈ rs, 3 ≤ r.length) (hcl : ∀ r ∈ rs, r.head? = r.getLast?)
    (hW : (flattenRings rs).length < usizeW) :
    convert_polygon (flattenRings rs) (rs.map List.length)
      = .ok (renderPolys (groupRingsSpec (flagsOf rs))) := by
  have hev : (flattenRings rs).length % 2 = 0 := by
    rw [length_flattenRings]; omega
  have hslice : sliceRings (flattenRings rs) (rs.map List.length) 0 = .ok rs := by
    have := sliceRings_flatten rs [] (by simpa using hW)
    simpa using this
  have hgroup := groupLoop_spec rs [] [] h3 hcl (by simp)
  simp [convert_polygon, hev, hslice, hgroup, specCont]

/-! ### Claim theorems -/

/-- C1: `convert_polygon` groups rings by winding order with the clockwise
flag as a partition boundary: over any list of closed rings of at least 3
points, its output is exactly the spec-side grouping in which each
clockwise ring starts a new polygon and the following counter-clockwise
rings are its holes; in particular a clockwise ring followed by a
counter-clockwise ring yields a single `Polygon` with exactly those 2
rings (exterior then hole), two clockwise rings yield a `MultiPolygon` of
exactly 2 single-ring polygons, and a lone counter-clockwise ring is
accepted as a polygon's sole ring rather than rejected. (Each clause
carries the wasm32-representability bound that the coordinate array is
shorter than `2^32`, under which the `usize` ring-size arithmetic does not
wrap; a longer slice cannot exist on wasm32.) -/
theorem convert_polygon_groups_rings_by_winding :
    (∀ rs : List Ring, (∀ r ∈ rs, 3 ≤ r.length) → (∀ r ∈ rs, r.head? = r.getLast?) →
      (flattenRings rs).length < usizeW →
      convert_polygon (flattenRings rs) (rs.map List.length)
        = .ok (renderPolys (groupRingsSpec (flagsOf rs)))) ∧
    (∀ r1 r2 : Ring, 3 ≤ r1.length → r1.head? = r1.getLast? →
      3 ≤ r2.length → r2.head? = r2.getLast? →
      (flattenRings [r1, r2]).length < usizeW →
      0 < shoelace r1 → shoelace r2 ≤ 0 →
      convert_polygon (flattenRings [r1, r2]) [r1.length, r2.length]
        = .ok (.polygon [r1, r2])) ∧
    (∀ r1 r2 : Ring, 3 ≤ r1.length → r1.head? = r1.getLast? →
      3 ≤ r2.length → r2.head? = r2.getLast? →
      (flattenRings [r1, r2]).length < usizeW →
      0 < shoelace r1 → 0 < shoelace r2 →
      convert_polygon (flattenRings [r1, r2]) [r1.length, r2.length]
        = .ok (.multiPolygon [[r1], [r2]])) ∧
    (∀ r : Ring, 3 ≤ r.length → r.head? = r.getLast? →
      (flattenRings [r]).length < usizeW → shoelace r ≤ 0 →
      convert_polygon (flattenRings [r]) [r.length] = .ok (.polygon [r])) := by
  refine ⟨fun rs h3 hcl hW => convert_polygon_flatten rs h3 hcl hW, ?_, ?_, ?_⟩
  · intro r1 r2 h31 hc1 h32 hc2 hW hs1 hs2
    have := convert_polygon_flatten [r1, r2] (by simp [h31, h32])
      (by simp [hc1, hc2]) hW
    simpa [flagsOf, groupRingsSpec, renderPolys, decide_eq_true hs1,
      decide_eq_false (not_lt.mpr hs2)] using this
  · intro r1 r2 h31 hc1 h32 hc2 hW hs1 hs2
    have := convert_polygon_flatten [r1, r2] (by simp [h31, h32])
      (by simp [hc1, hc2]) hW
    simpa [flagsOf, groupRingsSpec, renderPolys, decide_eq_true hs1,
      decide_eq_true hs2] using this
  · intro r h3 hc hW hs
    have := convert_polygon_flatten [r] (by simp [h3]) (by simp [hc]) hW
    simpa [flagsOf, groupRingsSpec, renderPolys,
      decide_eq_false (not_lt.mpr hs)] using this

/-- Witness for C1: the clockwise unit square followed by the
counter-clockwise inner square yields a single `Polygon` with exactly those
two rings. -/
theorem convert_polygon_groups_rings_by_winding_witness :
    convert_polygon (flattenRings [sqCW, holeCCW]) [sqCW.length, holeCCW.length]
      = .ok (.polygon [sqCW, holeCCW]) := by
  refine convert_polygon_groups_rings_by_winding.2.1 sqCW holeCCW ?_ ?_ ?_ ?_ ?_ ?_ ?_
  · norm_num [sqCW]
  · norm_num [sqCW]
  · norm_num [holeCCW]
  · norm_num [holeCCW]
  · norm_num [sqCW, holeCCW, flattenRings, flattenPts, usizeW]
  · norm_num [sqCW, shoelace, edgeTerm]
  · norm_num [holeCCW, shoelace, edgeTerm]

/-- Counterexample for C2: on 7 scalars — at least 6, as the claim
quantifies — `is_clockwise` panics in the `chunks(2)` pairing rather than
returning a boolean. -/
theorem is_clockwise_seven_scalars_cex :
    is_clockwise [0, 0, 1, 0, 0, 1, 0]
      = .panic "index out of bounds: the len is 1 but the index is 1" := rfl

/-- C2 (amended: the at-least-6-scalar clause holds for complete pairs,
i.e. even-length arrays; an odd scalar count of at least 6 panics instead):
on an even number of at least 6 scalars `is_clockwise` returns exactly
whether the sum of `(x2 − x1) * (y2 + y1)` over consecutive pairs is
positive, fewer than 6 scalars is an error, and the two concrete rings of
the claim give `false` and `true`. -/
theorem is_clockwise_sign_spec :
    (∀ coords : List ℚ, 6 ≤ coords.length → coords.length % 2 = 0 →
      is_clockwise coords = .ok (decide (0 < shoelace (chunksPairs coords)))) ∧
    (∀ coords : List ℚ, coords.length < 6 →
      is_clockwise coords = .err "Ring must have at least 3 points") ∧
    is_clockwise [0, 0, 1, 0, 0, 1, 0, 0] = .ok false ∧
    is_clockwise [0, 0, 0, 1, 1, 1, 1, 0, 0, 0] = .ok true := by
  have main : ∀ coords : List ℚ, 6 ≤ coords.length → coords.length % 2 = 0 →
      is_clockwise coords = .ok (decide (0 < shoelace (chunksPairs coords))) := by
    intro coords h6 hev
    have h6' : ¬ coords.length < 6 := by omega
    simp [is_clockwise, h6', chunksPairsR_even _ hev]
  refine ⟨main, fun coords h => by simp [is_clockwise, h], ?_, ?_⟩
  · rw [main _ (by norm_num) (by norm_num)]
    norm_num [chunksPairs, shoelace, edgeTerm]
  · rw [main _ (by norm_num) (by norm_num)]
    norm_num [chunksPairs, shoelace, edgeTerm]

/-- Witness for C2: the counter-clockwise closed triangle, through the
theorem's first clause. -/
theorem is_clockwise_sign_spec_witness :
    is_clockwise [0, 0, 1, 0, 0, 1, 0, 0]
      = .ok (decide (0 < shoelace (chunksPairs [0, 0, 1, 0, 0, 1, 0, 0]))) :=
  is_clockwise_sign_spec.1 _ (by norm_num) (by norm_num)

theorem sliceRings_overflow :
    ∀ (sizes : List ℕ) (coords : List ℚ) (offset : ℕ),
      offset ≤ coords.length → coords.length < offset + 2 * sizes.sum →
      offset + 2 * sizes.sum < usizeW →
      ∃ m, sliceRings coords sizes offset = .panic m
  | [], _, _, hle, hlt, _ => by simp at hlt; omega
  | size :: rest, coords, offset, hle, hlt, hW => by
    have hlt' : coords.length < offset + 2 * (size + rest.sum) := by
      simpa [List.sum_cons] using hlt
    have hW' : offset + 2 * (size + rest.sum) < usizeW := by
      simpa [List.sum_cons] using hW
    have hmul : mul32 size 2 = size * 2 := by
      have h : size * 2 < usizeW := by omega
      simp [mul32, Nat.mod_eq_of_lt h]
    have hadd : add32 offset (size * 2) = offset + size * 2 := by
      have h : offset + size * 2 < usizeW := by omega
      simp [add32, Nat.mod_eq_of_lt h]
    have hnot1 : ¬ (offset + size * 2 < offset) := by omega
    by_cases h : coords.length < offset + size * 2
    · exact ⟨"range end index " ++ toString (offset + size * 2)
        ++ " out of range for slice of length " ++ toString coords.length,
        by simp [sliceRings, hmul, hadd, hnot1, h]⟩
    · obtain ⟨m, hm⟩ := sliceRings_overflow rest coords (offset + size * 2)
        (by omega) (by omega) (by omega)
      exact ⟨m, by simp [sliceRings, hmul, hadd, hnot1, h, hm]⟩

/-- Counterexample for C3: 4 coordinates (2 points) with a declared ring of
3 points make `convert_polygon` panic (a wasm trap) — it does not return an
error value. -/
theorem convert_polygon_slice_cex :
    convert_polygon [0, 0, 1, 1] [3]
      = .panic "range end index 6 out of range for slice of length 4" := rfl

/-- C3 (amended: the function aborts with a slice-index panic, a wasm trap,
rather than returning a `SliceOutOfBounds` error value, and only on
failing inputs whose doubled point total does not overflow the wasm32
`usize` — an overflowing ring size wraps and escapes the panic): for every
even-length coordinate array and ring-size sequence whose point total
exceeds half the array length with `2 * sum < 2^32`, `convert_polygon`
panics; with the wrapping size `2^31` it instead returns the
too-few-points error value. -/
theorem convert_polygon_slice_overflow_panics :
    (∀ (coords : List ℚ) (sizes : List ℕ), coords.length % 2 = 0 →
      coords.length < 2 * sizes.sum → 2 * sizes.sum < usizeW →
      ∃ m, convert_polygon coords sizes = .panic m) ∧
    convert_polygon [0, 0, 1, 1] [2 ^ 31] = .err "Ring must have at least 3 points" := by
  constructor
  · intro coords sizes hev hlt hW
    obtain ⟨m, hm⟩ := sliceRings_overflow sizes coords 0 (by omega) (by omega) (by omega)
    exact ⟨m, by simp [convert_polygon, hev, hm]⟩
  · rfl

/-- Witness for C3: the concrete overflowing input, through the theorem's
first clause. -/
theorem convert_polygon_slice_overflow_panics_witness :
    ∃ m, convert_polygon [0, 0, 1, 1] [3] = .panic m :=
  convert_polygon_slice_overflow_panics.1 [0, 0, 1, 1] [3] (by norm_num)
    (by norm_num) (by norm_num [usizeW])

theorem boundsFold_eq (pts : List (FP × FP)) (b : Bounds) :
    boundsFold pts b = ⟨(pts.map Prod.fst).foldl fmin b.min_x,
      (pts.map Prod.snd).foldl fmin b.min_y,
      (pts.map Prod.fst).foldl fmax b.max_x,
      (pts.map Prod.snd).foldl fmax b.max_y⟩ := by
  induction pts generalizing b with
  | nil => rfl
  | cons p rest ih => cases p; simp [boundsFold, ih, List.foldl]

theorem foldl_fmin_finite (l : List FP) (hl : ∀ x ∈ l, x.isFinite = true) :
    ∀ a : ℚ, ∃ q : ℚ, l.foldl fmin (.fin a) = .fin q ∧ q ≤ a ∧ FP.fin q ∈ FP.fin a :: l := by
  induction l with
  | nil => exact fun a => ⟨a, rfl, le_refl a, by simp⟩
  | cons x rest ih =>
    intro a
    have hx : x.isFinite = true := hl x (by simp)
    have hrest : ∀ y ∈ rest, y.isFinite = true := fun y hy => hl y (by simp [hy])
    cases x with
    | nan => simp [FP.isFinite] at hx
    | ninf => simp [FP.isFinite] at hx
    | inf => simp [FP.isFinite] at hx
    | fin c =>
      obtain ⟨q, heq, hle, hmem⟩ := (ih hrest) (min a c)
      refine ⟨q, ?_, le_trans hle (min_le_left a c), ?_⟩
      · simpa [List.foldl, fmin] using heq
      · rcases List.mem_cons.mp hmem with h | h
        · rcases min_choice a c with hm | hm <;> rw [hm] at h <;> simp [h]
        · simp [h]

theorem foldl_fmax_finite (l : List FP) (hl : ∀ x ∈ l, x.isFinite = true) :
    ∀ a : ℚ, ∃ q : ℚ, l.foldl fmax (.fin a) = .fin q ∧ a ≤ q ∧ FP.fin q ∈ FP.fin a :: l := by
  induction l with
  | nil => exact fun a => ⟨a, rfl, le_refl a, by simp⟩
  | cons x rest ih =>
    intro a
    have hx : x.isFinite = true := hl x (by simp)
    have hrest : ∀ y ∈ rest, y.isFinite = true := fun y hy => hl y (by simp [hy])
    cases x with
    | nan => simp [FP.isFinite] at hx
    | ninf => simp [FP.isFinite] at hx
    | inf => simp [FP.isFinite] at hx
    | fin c =>
      obtain ⟨q, heq, hle, hmem⟩ := (ih hrest) (max a c)
      refine ⟨q, ?_, le_trans (le_max_left a c) hle, ?_⟩
      · simpa [List.foldl, fmax] using heq
      · rcases List.mem_cons.mp hmem with h | h
        · rcases max_choice a c with hm | hm <;> rw [hm] at h <;> simp [h]
        · simp [h]

theorem mem_chunksPairs {α : Type} :
    ∀ (l : List α) (p : α × α), p ∈ chunksPairs l → p.1 ∈ l ∧ p.2 ∈ l
  | [], p, hp => by simp [chunksPairs] at hp
  | [_], p, hp => by simp [chunksPairs] at hp
  | x :: y :: rest, p, hp => by
    rcases List.mem_cons.mp hp with h | h
    · subst h; simp
    · have := mem_chunksPairs rest p h
      exact ⟨by simp [this.1], by simp [this.2]⟩

theorem mem_map_fst_chunksPairs {α : Type} (l : List α) (z : α)
    (h : z ∈ (chunksPairs l).map Prod.fst) : z ∈ l := by
  obtain ⟨p, hp, hpz⟩ := List.mem_map.mp h
  subst hpz
  exact (mem_chunksPairs l p hp).1

theorem mem_map_snd_chunksPairs {α : Type} (l : List α) (z : α)
    (h : z ∈ (chunksPairs l).map Prod.snd) : z ∈ l := by
  obtain ⟨p, hp, hpz⟩ := List.mem_map.mp h
  subst hpz
  exact (mem_chunksPairs l p hp).2

/-- Counterexample for C4: the non-empty even-length input `[−∞, 5]` makes
`calculate_bounds` return the zero box, whose value `0` is not a coordinate
present in the input. -/
theorem calculate_bounds_nonfinite_cex :
    calculate_bounds [FP.ninf, FP.fin 5] = .ok [.fin 0, .fin 0, .fin 0, .fin 0] ∧
    FP.fin 0 ∉ [FP.ninf, FP.fin 5] := by
  refine ⟨rfl, ?_⟩
  intro h
  rcases List.mem_cons.mp h with h' | h'
  · exact FP.noConfusion h'
  · rcases List.mem_cons.mp h' with h'' | h''
    · injection h'' with h3
      exact absurd h3 (by norm_num)
    · simp at h''

/-- C4 (amended: the min ≤ max and present-in-input clauses hold for
non-empty even-length sequences of finite coordinates; a non-empty
sequence containing non-finite values can instead yield the zero box):
for finite input the four returned values are finite, min ≤ max on both
axes, and each is a coordinate present in the input; the empty sequence
returns the zero box rather than an error. -/
theorem calculate_bounds_finite_spec :
    (∀ coords : List FP, coords ≠ [] → coords.length % 2 = 0 →
      (∀ c ∈ coords, c.isFinite = true) →
      ∃ mnx mny mxx mxy : ℚ,
        calculate_bounds coords = .ok [.fin mnx, .fin mny, .fin mxx, .fin mxy] ∧
        mnx ≤ mxx ∧ mny ≤ mxy ∧
        FP.fin mnx ∈ coords ∧ FP.fin mny ∈ coords ∧
        FP.fin mxx ∈ coords ∧ FP.fin mxy ∈ coords) ∧
    calculate_bounds [] = .ok [.fin 0, .fin 0, .fin 0, .fin 0] := by
  refine ⟨?_, rfl⟩
  intro coords hne hev hfin
  cases coords with
  | nil => exact absurd rfl hne
  | cons c1 tl =>
  cases tl with
  | nil => simp at hev
  | cons c2 rest =>
  have h1 : c1.isFinite = true := hfin c1 (by simp)
  have h2 : c2.isFinite = true := hfin c2 (by simp)
  have hxs : ∀ z ∈ (chunksPairs rest).map Prod.fst, z.isFinite = true := by
    intro z hz
    exact hfin z (by simp [mem_map_fst_chunksPairs rest z hz])
  have hys : ∀ z ∈ (chunksPairs rest).map Prod.snd, z.isFinite = true := by
    intro z hz
    exact hfin z (by simp [mem_map_snd_chunksPairs rest z hz])
  cases c1 with
  | nan => simp [FP.isFinite] at h1
  | ninf => simp [FP.isFinite] at h1
  | inf => simp [FP.isFinite] at h1
  | fin a1 =>
  cases c2 with
  | nan => simp [FP.isFinite] at h2
  | ninf => simp [FP.isFinite] at h2
  | inf => simp [FP.isFinite] at h2
  | fin a2 =>
  obtain ⟨mnx, e1, le1, m1⟩ := foldl_fmin_finite _ hxs a1
  obtain ⟨mxx, e2, le2, m2⟩ := foldl_fmax_finite _ hxs a1
  obtain ⟨mny, e3, le3, m3⟩ := foldl_fmin_finite _ hys a2
  obtain ⟨mxy, e4, le4, m4⟩ := foldl_fmax_finite _ hys a2
  have hb := boundsFold_eq (chunksPairs (FP.fin a1 :: FP.fin a2 :: rest)) Bounds.start
  have hpts : chunksPairs (FP.fin a1 :: FP.fin a2 :: rest)
      = (FP.fin a1, FP.fin a2) :: chunksPairs rest := rfl
  rw [hpts] at hb
  simp only [List.map_cons, List.foldl_cons] at hb
  have hsx : fmin Bounds.start.min_x (FP.fin a1) = FP.fin a1 := rfl
  have hsy : fmin Bounds.start.min_y (FP.fin a2) = FP.fin a2 := rfl
  have htx : fmax Bounds.start.max_x (FP.fin a1) = FP.fin a1 := rfl
  have hty : fmax Bounds.start.max_y (FP.fin a2) = FP.fin a2 := rfl
  rw [hsx, hsy, htx, hty, e1, e2, e3, e4] at hb
  have hmem : ∀ z : ℚ, FP.fin z ∈ FP.fin a1 :: (chunksPairs rest).map Prod.fst →
      FP.fin z ∈ FP.fin a1 :: FP.fin a2 :: rest := by
    intro z hz
    rcases List.mem_cons.mp hz with h | h
    · simp [h]
    · simp [mem_map_fst_chunksPairs rest _ h]
  have hmem' : ∀ z : ℚ, FP.fin z ∈ FP.fin a2 :: (chunksPairs rest).map Prod.snd →
      FP.fin z ∈ FP.fin a1 :: FP.fin a2 :: rest := by
    intro z hz
    rcases List.mem_cons.mp hz with h | h
    · simp [h]
    · simp [mem_map_snd_chunksPairs rest _ h]
  refine ⟨mnx, mny, mxx, mxy, ?_, le_trans le1 le2, le_trans le3 le4,
    hmem mnx m1, hmem' mny m3, hmem mxx m2, hmem' mxy m4⟩
  have hev2 : (rest.length + 1 + 1) % 2 = 0 := by simpa using hev
  simp [calculate_bounds, hpts, hb, FP.isFinite, hev2]

/-- Witness for C4: the single finite point `(1, 2)`, through the
theorem's first clause. -/
theorem calculate_bounds_finite_spec_witness :
    ∃ mnx mny mxx mxy : ℚ,
      calculate_bounds [FP.fin 1, FP.fin 2] = .ok [.fin mnx, .fin mny, .fin mxx, .fin mxy] ∧
      mnx ≤ mxx ∧ mny ≤ mxy ∧
      FP.fin mnx ∈ [FP.fin 1, FP.fin 2] ∧ FP.fin mny ∈ [FP.fin 1, FP.fin 2] ∧
      FP.fin mxx ∈ [FP.fin 1, FP.fin 2] ∧ FP.fin mxy ∈ [FP.fin 1, FP.fin 2] :=
  calculate_bounds_finite_spec.1 [FP.fin 1, FP.fin 2] (by simp) (by norm_num)
    (by intro c hc; rcases List.mem_cons.mp hc with h | h
        · simp [h, FP.isFinite]
        · simp at h; simp [h, FP.isFinite])

/-- Counterexample for C10: the all-zero input `[0, 0]` returns the zero
box even though the running x-minimum after the scan is finite, so "exactly
when" fails in the only-if direction. -/
theorem calculate_bounds_zero_box_cex :
    calculate_bounds [FP.fin 0, FP.fin 0] = .ok [.fin 0, .fin 0, .fin 0, .fin 0] ∧
    (boundsFold (chunksPairs [FP.fin 0, FP.fin 0]) Bounds.start).min_x.isFinite = true :=
  ⟨rfl, rfl⟩

/-- C10 (amended: "exactly when" weakened to "whenever", since an all-zero
finite input also returns the zero box through the ordinary branch):
whenever the running x-minimum after the scan is non-finite,
`calculate_bounds` returns the zero box; in particular the non-empty
inputs whose x-components are all NaN, or which contain an x equal to
−infinity, yield the zero box — not only the empty input. -/
theorem calculate_bounds_zero_box_of_nonfinite :
    (∀ coords : List FP, coords.length % 2 = 0 →
      (boundsFold (chunksPairs coords) Bounds.start).min_x.isFinite = false →
      calculate_bounds coords = .ok [.fin 0, .fin 0, .fin 0, .fin 0]) ∧
    calculate_bounds [FP.nan, FP.fin 1, FP.nan, FP.fin 2]
      = .ok [.fin 0, .fin 0, .fin 0, .fin 0] ∧
    calculate_bounds [FP.ninf, FP.fin 0, FP.fin 3, FP.fin 4]
      = .ok [.fin 0, .fin 0, .fin 0, .fin 0] := by
  refine ⟨?_, rfl, rfl⟩
  intro coords hev hnf
  simp [calculate_bounds, hev, hnf]

/-- Witness for C10: the all-NaN-x input, through the theorem's first
clause. -/
theorem calculate_bounds_zero_box_of_nonfinite_witness :
    calculate_bounds [FP.nan, FP.fin 1] = .ok [.fin 0, .fin 0, .fin 0, .fin 0] :=
  calculate_bounds_zero_box_of_nonfinite.1 [FP.nan, FP.fin 1] (by norm_num) rfl

theorem shoelace_cons_cons (a b : ℚ × ℚ) (t : List (ℚ × ℚ)) :
    shoelace (a :: b :: t) = edgeTerm a b + shoelace (b :: t) := rfl

theorem shoelace_append_pair (l : List (ℚ × ℚ)) (p q : ℚ × ℚ) :
    shoelace (l ++ [p, q]) = shoelace (l ++ [p]) + edgeTerm p q := by
  induction l with
  | nil => simp [shoelace]
  | cons a l ih =>
    cases l with
    | nil => simp [shoelace]
    | cons b l' =>
      simp only [List.cons_append] at ih ⊢
      rw [shoelace_cons_cons, shoelace_cons_cons, ih]
      ring

theorem shoelace_reverse : ∀ l : List (ℚ × ℚ), shoelace l.reverse = -shoelace l := by
  have aux : ∀ (l : List (ℚ × ℚ)) (p : ℚ × ℚ),
      shoelace (p :: l).reverse = -shoelace (p :: l) := by
    intro l
    induction l with
    | nil => intro p; simp [shoelace]
    | cons q l' ih =>
      intro p
      have h1 : (p :: q :: l').reverse = (q :: l').reverse ++ [p] := by simp
      have h2 : (q :: l').reverse = l'.reverse ++ [q] := by simp
      calc shoelace (p :: q :: l').reverse
          = shoelace ((l'.reverse ++ [q]) ++ [p]) := by rw [h1, h2]
        _ = shoelace (l'.reverse ++ [q, p]) := by simp
        _ = shoelace (l'.reverse ++ [q]) + edgeTerm q p := shoelace_append_pair _ _ _
        _ = shoelace (q :: l').reverse + edgeTerm q p := by rw [h2]
        _ = -shoelace (q :: l') + edgeTerm q p := by rw [ih q]
        _ = -(edgeTerm p q + shoelace (q :: l')) := by simp [edgeTerm]; ring
        _ = -shoelace (p :: q :: l') := rfl
  intro l
  cases l with
  | nil => simp [shoelace]
  | cons p l' => exact aux l' p

theorem shoelace_rotate (p q : ℚ × ℚ) (mid : List (ℚ × ℚ)) :
    shoelace (p :: q :: (mid ++ [p])) = shoelace ((q :: (mid ++ [p])) ++ [q]) := by
  have lhs : shoelace (p :: q :: (mid ++ [p]))
      = edgeTerm p q + shoelace (q :: (mid ++ [p])) := rfl
  have rhs : shoelace ((q :: (mid ++ [p])) ++ [q])
      = shoelace ((q :: mid) ++ [p]) + edgeTerm p q := by
    have h : (q :: (mid ++ [p])) ++ [q] = (q :: mid) ++ [p, q] := by simp
    rw [h, shoelace_append_pair]
  have h2 : (q :: mid) ++ [p] = q :: (mid ++ [p]) := by simp
  rw [lhs, rhs, h2]
  ring

/-- Counterexample for C5: the degenerate closed ring
`(0,0), (1,0), (0,0)` has zero signed area; it equals its own pointwise
reversal, so `is_clockwise` is `false` on the ring and on its reversal —
reversing the winding direction does not flip the result. -/
theorem is_clockwise_reverse_cex :
    is_clockwise (flattenPts (chunksPairs [0, 0, 1, 0, 0, 0])) = .ok false ∧
    is_clockwise (flattenPts (chunksPairs [0, 0, 1, 0, 0, 0]).reverse) = .ok false := by
  constructor
  · rw [is_clockwise_flatten _ (by norm_num [chunksPairs])]
    norm_num [chunksPairs, shoelace, edgeTerm]
  · rw [is_clockwise_flatten _ (by norm_num [chunksPairs])]
    norm_num [chunksPairs, shoelace, edgeTerm]

/-- C5 (amended: reversal flips the result for accepted rings whose
signed-area sum is nonzero — a zero-sum ring yields `false` both ways —
and rotation of the starting vertex of a closed ring never changes it):
reversing a ring with nonzero shoelace sum flips `is_clockwise`, and
rotating the starting vertex of a closed ring preserves it. -/
theorem is_clockwise_reverse_rotate :
    (∀ ps : List (ℚ × ℚ), 3 ≤ ps.length → shoelace ps ≠ 0 →
      ∃ b, is_clockwise (flattenPts ps) = .ok b ∧
        is_clockwise (flattenPts ps.reverse) = .ok (!b)) ∧
    (∀ (p q : ℚ × ℚ) (mid : List (ℚ × ℚ)),
      is_clockwise (flattenPts (p :: q :: (mid ++ [p])))
        = is_clockwise (flattenPts ((q :: (mid ++ [p])) ++ [q]))) := by
  constructor
  · intro ps hlen hs
    refine ⟨decide (0 < shoelace ps), is_clockwise_flatten ps hlen, ?_⟩
    rw [is_clockwise_flatten ps.reverse (by simpa using hlen), shoelace_reverse]
    rcases lt_trichotomy (shoelace ps) 0 with h | h | h
    · simp [not_lt.mpr (le_of_lt h), neg_pos.mpr h]
    · exact absurd h hs
    · have h1 : ¬ (0 < -shoelace ps) := by
        rw [neg_pos]
        exact not_lt.mpr (le_of_lt h)
      simp [h, h1]
  · intro p q mid
    rw [is_clockwise_flatten _ (by simp), is_clockwise_flatten _ (by simp),
      shoelace_rotate]

/-- Witness for C5: the clockwise unit square, whose reversal is
counter-clockwise, through the theorem's first clause. -/
theorem is_clockwise_reverse_rotate_witness :
    ∃ b, is_clockwise (flattenPts sqCW) = .ok b ∧
      is_clockwise (flattenPts sqCW.reverse) = .ok (!b) :=
  is_clockwise_reverse_rotate.1 sqCW (by norm_num [sqCW])
    (by norm_num [sqCW, shoelace, edgeTerm])

/-- C6: all four converters reject any odd-length coordinate array with the
even-length error, never silently dropping the trailing element. -/
theorem odd_length_coordinate_errors :
    (∀ coords : List FP, coords.length % 2 = 1 →
      calculate_bounds coords = .err "Coordinates array must have even length") ∧
    (∀ coords : List ℚ, coords.length % 2 = 1 →
      convert_multi_point coords = .err "Coordinates array must have even length") ∧
    (∀ coords : List ℚ, coords.length % 2 = 1 →
      convert_polyline coords = .err "Coordinates array must have even length") ∧
    (∀ (coords : List ℚ) (sizes : List ℕ), coords.length % 2 = 1 →
      convert_polygon coords sizes = .err "Coordinates array must have even length") := by
  refine ⟨?_, ?_, ?_, ?_⟩
  · intro coords h
    simp [calculate_bounds, h]
  · intro coords h
    simp [convert_multi_point, h]
  · intro coords h
    simp [convert_polyline, h]
  · intro coords sizes h
    simp [convert_polygon, h]

/-- Witness for C6: the single-scalar array, through the theorem's last
clause. -/
theorem odd_length_coordinate_errors_witness :
    convert_polygon [0] [1] = .err "Coordinates array must have even length" :=
  odd_length_coordinate_errors.2.2.2 [0] [1] (by norm_num)

/-- C7 evaluation (code bug): the conversion functions serialize the
`geo_types` values they build, so `convert_point(1, 2)` reaches JavaScript
as the coord object with keys `x` and `y` — carrying neither a `type`
discriminator nor a `coordinates` field — while the repository's own
(unused) `geojson.rs` `Point` shape, which the claim describes, is the
`type`/`coordinates` object; a polyline serializes as a bare array with no
object keys at all. -/
theorem conversion_output_lacks_interchange_shape :
    serializedOutput (convert_point 1 2)
      = some (.obj [("x", .num 1), ("y", .num 2)]) ∧
    jsonKeys (geoTypesJson (.point (1, 2))) = ["x", "y"] ∧
    "type" ∉ jsonKeys (geoTypesJson (.point (1, 2))) ∧
    "coordinates" ∉ jsonKeys (geoTypesJson (.point (1, 2))) ∧
    jsonKeys (geojsonPointJson 1 2) = ["type", "coordinates"] ∧
    serializedOutput (convert_polyline [0, 1, 2, 3])
      = some (.arr [coordJson (0, 1), coordJson (2, 3)]) ∧
    jsonKeys (geoTypesJson (.lineString [(0, 1), (2, 3)])) = [] := by
  refine ⟨rfl, rfl, ?_, ?_, rfl, rfl, rfl⟩
  · decide
  · decide

/-- C8: `validate_shape_type` succeeds exactly on the 14 recognized codes,
with `false` for the null shape 0, `true` for the other 13, and an error
for every other code. -/
theorem validate_shape_type_codes :
    validate_shape_type 0 = .ok false ∧
    (∀ c ∈ ([1, 3, 5, 8, 11, 13, 15, 18, 21, 23, 25, 28, 31] : List ℕ),
      validate_shape_type c = .ok true) ∧
    (∀ c : ℕ, c ∉ ([0, 1, 3, 5, 8, 11, 13, 15, 18, 21, 23, 25, 28, 31] : List ℕ) →
      validate_shape_type c = .err ("Invalid shape type: " ++ toString c)) := by
  refine ⟨rfl, ?_, ?_⟩
  · intro c hc
    fin_cases hc <;> rfl
  · intro c hc
    simp only [List.mem_cons, List.not_mem_nil, or_false] at hc
    push_neg at hc
    obtain ⟨h0, h1, h3, h5, h8, h11, h13, h15, h18, h21, h23, h25, h28, h31⟩ := hc
    simp [validate_shape_type, h0, h1, h3, h5, h8, h11, h13, h15, h18, h21,
      h23, h25, h28, h31]

/-- Witness for C8: the unrecognized code 999, through the theorem's last
clause. -/
theorem validate_shape_type_codes_witness :
    validate_shape_type 999 = .err ("Invalid shape type: " ++ toString 999) :=
  validate_shape_type_codes.2.2 999 (by decide)

/-- Counterexample for C9: with `offset = 2^32 − 1`, `record_size = 1`,
`buffer_length = 10` — an offset strictly greater than the buffer length,
and `offset + record_size > buffer_length` as mathematical integers — the
wrapping `offset + record_size` comparison makes the function return
success, not an error value. -/
theorem validate_record_buffer_space_overflow_cex :
    validate_record_buffer_space (2 ^ 32 - 1) 1 10 0 = .ok ∧
    10 < 2 ^ 32 - 1 + 1 := by
  exact ⟨rfl, by norm_num⟩

/-- C9 (amended: totality of the error holds on failing inputs whose
`offset + record_size` does not overflow the wasm32 `usize`; an
overflowing sum wraps and can return success): for every non-overflowing
failing input the function returns the error value, and its reported
available-byte count is the wrapping subtraction
`buffer_length − offset`, which for `offset > buffer_length` underflows to
`2^32 + buffer_length − offset` — more than the whole buffer — instead of
the true remaining byte count. -/
theorem validate_record_buffer_space_wrap :
    (∀ (offset record_size buffer_length : ℕ) (n : ℤ),
      offset + record_size < usizeW → buffer_length < offset + record_size →
      validate_record_buffer_space offset record_size buffer_length n
        = .err n record_size (sub32 buffer_length offset)) ∧
    (∀ offset buffer_length : ℕ, offset < usizeW → buffer_length < offset →
      sub32 buffer_length offset = usizeW + buffer_length - offset ∧
      buffer_length < sub32 buffer_length offset) := by
  constructor
  · intro o r b n hov hlt
    have hadd : add32 o r = o + r := by
      simp [add32, Nat.mod_eq_of_lt hov]
    simp [validate_record_buffer_space, hadd, hlt]
  · intro o b ho hb
    have h1 : b + usizeW - o < usizeW := by omega
    have h2 : sub32 b o = usizeW + b - o := by
      simp [sub32, Nat.mod_eq_of_lt h1]
      omega
    refine ⟨h2, ?_⟩
    rw [h2]
    omega

/-- Witness for C9: a concrete truncated record (offset 8, size 4, buffer
10), through the theorem's first clause. -/
theorem validate_record_buffer_space_wrap_witness :
    validate_record_buffer_space 8 4 10 1 = .err 1 4 (sub32 10 8) :=
  validate_record_buffer_space_wrap.1 8 4 10 1 (by norm_num [usizeW]) (by norm_num)

end Shapefile
